import Mathlib

/-!
Verification development for the telemetry dashboard's data-processing core:
the worker pool manager (`dashboard/src/workers/workerPool.ts`), the
processing worker (`dashboard/src/workers/telemetryWorker.ts`), the LTTB
downsampler (`dashboard/src/utils/lttb.ts`) and the IndexedDB LRU cache
(`dashboard/src/utils/cache.ts`).

The TypeScript source is shallowly embedded: JavaScript numbers are modelled
as `ℚ` (the algorithms under study only use +, -, *, /, abs, floor and
comparisons, and none of the verified properties depends on rounding of IEEE
doubles), JS strings as `String`, nullable fields as `Option`, thrown
exceptions as `Except String`, and the message-passing side effects of the
worker (`postMessage`) as the ordered list of emitted messages.
-/

/-! ## Data model (`dashboard/src/types/data.ts`) -/

/-- `TelemetryPoint` from `types/data.ts`: one sampled instant of vehicle
state.  Nullable numeric channels become `Option ℚ`.  `timestamp` can be an
empty string in real data (the code guards it with `timestamp || meta_time`),
so it stays a plain `String` and JS falsiness is the `= ""` test. -/
structure TelemetryPoint where
  vehicle_id : String
  meta_time : String
  timestamp : String
  lap : ℚ
  Laptrigger_lapdist_dls : Option ℚ
  Steering_Angle : Option ℚ
  VBOX_Lat_Min : Option ℚ
  VBOX_Long_Minutes : Option ℚ
  accx_can : Option ℚ
  accy_can : Option ℚ
  aps : Option ℚ
  ath : Option ℚ
  gear : Option ℚ
  nmot : Option ℚ
  pbrake_f : Option ℚ
  pbrake_r : Option ℚ
  speed : Option ℚ
  NUMBER : ℚ
  SOURCE_DIR : String
  deriving DecidableEq, Repr

/-- `CompressedTelemetryPoint` from `types/data.ts`: the abbreviated wire
format of a telemetry point. -/
structure CompressedTelemetryPoint where
  vid : String
  mt : String
  ts : String
  lap : ℚ
  dist : Option ℚ
  steer : Option ℚ
  lat : Option ℚ
  lon : Option ℚ
  accx : Option ℚ
  accy : Option ℚ
  aps : Option ℚ
  ath : Option ℚ
  gear : Option ℚ
  rpm : Option ℚ
  bf : Option ℚ
  br : Option ℚ
  spd : Option ℚ
  num : ℚ
  src : String
  deriving DecidableEq, Repr

/-- The `metadata` record of `LapTelemetry` (duration, maxSpeed, avgSpeed). -/
structure LapMetadata where
  duration : ℚ
  maxSpeed : ℚ
  avgSpeed : ℚ
  deriving DecidableEq, Repr

/-- `SectorTiming` from `types/data.ts`. -/
structure SectorTiming where
  sectorNumber : ℕ
  startTime : ℚ
  endTime : ℚ
  duration : ℚ
  deriving DecidableEq, Repr

/-- `LapTelemetry` from `types/data.ts` (driver and lap numbers are integers
in the data, so they are modelled as `ℤ`, matching the cache API below which
interpolates them into string keys). -/
structure LapTelemetry where
  driverNumber : ℤ
  lapNumber : ℤ
  points : List TelemetryPoint
  sectors : List SectorTiming
  metadata : LapMetadata
  deriving DecidableEq, Repr

/-! ## LTTB downsampler

`dashboard/src/utils/lttb.ts` (`downsampleLTTB`) and the worker's private
copy in `telemetryWorker.ts` (`downsampleTelemetry`) contain the identical
bucket loop, line for line; only the guard and the accessors differ.  The
loop is therefore embedded once (`lttbGo` / `lttbCore`) and instantiated by
both entry points. -/

/-- `Math.floor(t * bucketSize) + 1`, the bucket boundary computed by the
LTTB loop for iteration index `t` (`bucketStart` at `t = i`, `bucketEnd` and
`nextBucketStart` at `t = i+1`, the raw next-bucket end at `t = i+2`). -/
def bucketBound (bs : ℚ) (t : ℕ) : ℕ :=
  (⌊(t : ℚ) * bs⌋ + 1).toNat

/-- The `maxArea` scan of one LTTB bucket: fold over the indices
`[lo, lo + len)` keeping the argmax of `f` under strict improvement
(`area > maxArea`), with `maxArea` initialised to `-1` and `maxAreaIndex` to
`lo`; returns the final `maxAreaIndex`. -/
def scanMaxIdx (f : ℕ → ℚ) (lo len : ℕ) : ℕ :=
  ((List.range' lo len).foldl
    (fun (st : ℚ × ℕ) j => if st.1 < f j then (f j, j) else st) (-1, lo)).2

/-- One iteration of the LTTB bucket loop: the index `maxAreaIndex` selected
for iteration `i`, given the previously selected point `last`
(`sampled[sampledIndex]`).  `data.getD j d0` models `data[j]` (every index
dereferenced is in range whenever the loop is reached with
`3 ≤ threshold < data.length`). -/
def lttbSelect (data : List α) (d0 : α) (x y : α → ℚ) (bs : ℚ) (n : ℕ)
    (i : ℕ) (last : α) : ℕ :=
  -- const bucketStart = Math.floor(i * bucketSize) + 1;
  -- const bucketEnd   = Math.floor((i + 1) * bucketSize) + 1;
  let bucketStart := bucketBound bs i
  let bucketEnd := bucketBound bs (i + 1)
  -- const nextBucketStart = Math.floor((i + 1) * bucketSize) + 1;
  -- const nextBucketEnd   = Math.min(Math.floor((i + 2) * bucketSize) + 1, n);
  let nextBucketStart := bucketBound bs (i + 1)
  let nextBucketEnd := min (bucketBound bs (i + 2)) n
  -- avgX / avgY: sum over the next bucket, divided by its length if nonempty
  let nextRange := List.range' nextBucketStart (nextBucketEnd - nextBucketStart)
  let avgRangeLength := nextRange.length
  let avgX : ℚ :=
    if avgRangeLength = 0 then 0
    else (nextRange.map fun j => x (data.getD j d0)).sum / avgRangeLength
  let avgY : ℚ :=
    if avgRangeLength = 0 then 0
    else (nextRange.map fun j => y (data.getD j d0)).sum / avgRangeLength
  -- const lastX = xAccessor(sampled[sampledIndex]); const lastY = ...
  let lastX := x last
  let lastY := y last
  -- area = Math.abs((lastX-avgX)*(curY-lastY) - (lastX-curX)*(avgY-lastY)) * 0.5
  let area : ℕ → ℚ := fun j =>
    |(lastX - avgX) * (y (data.getD j d0) - lastY) -
      (lastX - x (data.getD j d0)) * (avgY - lastY)| / 2
  -- scan the current bucket for the candidate of maximal area
  -- (strict `>` against maxArea initialised to -1, maxAreaIndex to bucketStart)
  scanMaxIdx area bucketStart (bucketEnd - bucketStart)

/-- The LTTB `for (let i = 0; i < threshold - 2; i++)` loop.  `k` is the
number of iterations remaining, `i` the current iteration index, `last` the
previously selected point.  Each iteration pushes `data[maxAreaIndex]` and
continues with it as the new anchor. -/
def lttbGo (data : List α) (d0 : α) (x y : α → ℚ) (bs : ℚ) (n : ℕ) :
    ℕ → ℕ → α → List α
  | 0, _, _ => []
  | k + 1, i, last =>
    let sel := data.getD (lttbSelect data d0 x y bs n i last) d0
    sel :: lttbGo data d0 x y bs n k (i + 1) sel

/-- The common LTTB body after the pass-through guard: first point, the
bucket loop, then the last point (`sampled.push(data[data.length - 1])`). -/
def lttbCore (data : List α) (d0 : α) (x y : α → ℚ) (threshold : ℕ) : List α :=
  let n := data.length
  -- const bucketSize = (data.length - 2) / (threshold - 2);  (JS real division)
  let bs : ℚ := ((n : ℚ) - 2) / ((threshold : ℚ) - 2)
  (d0 :: lttbGo data d0 x y bs n (threshold - 2) 0 d0) ++ [data.getD (n - 1) d0]

/-- `downsampleLTTB` from `utils/lttb.ts`.  Its only pass-through guard is
`data.length <= threshold` — there is no `threshold < 3` check in this file
(unlike the worker's copy).  The inner `match` only names `data[0]`, which
exists whenever the guard fails. -/
def downsampleLTTB (data : List α) (threshold : ℕ) (x y : α → ℚ) : List α :=
  if data.length ≤ threshold then data
  else
    match data with
    | [] => []
    | d0 :: _ => lttbCore data d0 x y threshold

namespace Worker

/-- `point.timestamp || point.meta_time` (JS: an empty string is falsy). -/
def tsOrMeta (p : TelemetryPoint) : String :=
  if p.timestamp = "" then p.meta_time else p.timestamp

/-- `downsampleTelemetry` from `telemetryWorker.ts`.  Unlike the standalone
`downsampleLTTB`, its guard also checks `threshold < 3`.  `parseDate` models
the JS `new Date(s).getTime()` primitive (a browser built-in, left abstract);
x is elapsed time from the first point, y is the speed channel with null
treated as 0. -/
def downsampleTelemetry (parseDate : String → ℚ)
    (points : List TelemetryPoint) (threshold : ℕ) : List TelemetryPoint :=
  if points.length ≤ threshold ∨ threshold < 3 then points
  else
    match points with
    | [] => []
    | p0 :: _ =>
      let startTime := parseDate (tsOrMeta p0)
      let getX := fun p => parseDate (tsOrMeta p) - startTime
      let getY := fun p : TelemetryPoint => p.speed.getD 0
      lttbCore points p0 getX getY threshold

end Worker

/-! ## Worker message protocol (`dashboard/src/types/store.ts`) -/

/-- `WorkerRequest` from `types/store.ts`.  The `PARSE_UPLOAD` payload is an
`ArrayBuffer` holding UTF-8 text; it is modelled as the decoded string.  The
`DOWNSAMPLE` payload is a telemetry point array. -/
inductive WorkerRequest where
  | parseLap (url : String) (lapId : String)
  | parseUpload (data : String) (filename : String)
  | downsample (data : List TelemetryPoint) (targetPoints : ℕ)
  deriving DecidableEq, Repr

/-- `WorkerResponse` from `types/store.ts`, parameterised by the point type
carried in `CHUNK` messages (the TS declaration types the chunk as `any[]`:
`PARSE_LAP` chunks carry expanded `TelemetryPoint`s while `PARSE_UPLOAD`
chunks carry dynamically built row objects). -/
inductive WorkerResponse (π : Type) where
  | progress (lapId : String) (progress : ℚ)
  | chunk (lapId : String) (chunk : List π)
  | complete (lapId : String) (metadata : LapMetadata)
  | error (lapId : String) (error : String)
  deriving DecidableEq, Repr

namespace Worker

/-- `sendProgress` from `telemetryWorker.ts`: clamps to `[0, 100]` via
`Math.min(Math.max(progress, 0), 100)`. -/
def sendProgress (lapId : String) (p : ℚ) : WorkerResponse π :=
  .progress lapId (min (max p 0) 100)

/-- `sendChunk` from `telemetryWorker.ts`. -/
def sendChunk (lapId : String) (c : List π) : WorkerResponse π :=
  .chunk lapId c

/-- `sendComplete` from `telemetryWorker.ts`. -/
def sendComplete (lapId : String) (m : LapMetadata) : WorkerResponse π :=
  .complete lapId m

/-- `sendError` from `telemetryWorker.ts`. -/
def sendError (lapId : String) (e : String) : WorkerResponse π :=
  .error lapId e

/-- `expandTelemetryPoint` from `telemetryWorker.ts`: renames the abbreviated
wire fields to the full schema. -/
def expandTelemetryPoint (compressed : CompressedTelemetryPoint) : TelemetryPoint :=
  { vehicle_id := compressed.vid
    meta_time := compressed.mt
    timestamp := compressed.ts
    lap := compressed.lap
    Laptrigger_lapdist_dls := compressed.dist
    Steering_Angle := compressed.steer
    VBOX_Lat_Min := compressed.lat
    VBOX_Long_Minutes := compressed.lon
    accx_can := compressed.accx
    accy_can := compressed.accy
    aps := compressed.aps
    ath := compressed.ath
    gear := compressed.gear
    nmot := compressed.rpm
    pbrake_f := compressed.bf
    pbrake_r := compressed.br
    speed := compressed.spd
    NUMBER := compressed.num
    SOURCE_DIR := compressed.src }

/-- `calculateMetadata` from `telemetryWorker.ts`, for the `PARSE_LAP` path
whose points are `TelemetryPoint`s.  `parseDate` models
`new Date(s).getTime()`; duration is `(last - first) / 1000` clamped at 0;
max/avg are over the non-null speed values (`parseCSVValue` never produces
`NaN` on this path, and a null speed is filtered out). -/
def calculateMetadata (parseDate : String → ℚ)
    (points : List TelemetryPoint) : LapMetadata :=
  match points with
  | [] => ⟨0, 0, 0⟩
  | p0 :: _ =>
    let firstTime := parseDate (tsOrMeta p0)
    let lastTime := parseDate (tsOrMeta (points.getD (points.length - 1) p0))
    let duration := (lastTime - firstTime) / 1000
    let speeds := points.filterMap (·.speed)
    let maxSpeed := match speeds with
      | [] => 0
      | s :: rest => rest.foldl max s
    let avgSpeed := if speeds.length = 0 then 0 else speeds.sum / speeds.length
    ⟨max duration 0, maxSpeed, avgSpeed⟩

/-- The chunked emission loop of `handleParseLap`:
`for (let i = 0; i < totalPoints; i += 1000)` slices 1000 compressed points,
expands them, emits the chunk, then a progress message
`min(60 + ((i + 1000) / totalPoints) * 35, 95)`. -/
def parseLapLoop (lapId : String) (total : ℕ) :
    ℕ → List CompressedTelemetryPoint → List (WorkerResponse TelemetryPoint)
  | _, [] => []
  | i, p :: rest =>
    let chunk := ((p :: rest).take 1000).map expandTelemetryPoint
    sendChunk lapId chunk ::
      sendProgress lapId (min (60 + (((i : ℚ) + 1000) / (total : ℚ)) * 35) 95) ::
      parseLapLoop lapId total (i + 1000) ((p :: rest).drop 1000)
  termination_by _ l => l.length
  decreasing_by simp only [List.length_drop, List.length_cons]; omega

/-- `handleParseLap` from `telemetryWorker.ts`, as the ordered list of
messages it posts.  Fetch, gzip inflation and `JSON.parse` are external
primitives; per the claim under study the payload is assumed to decompress
and parse into the compressed point array `cps`, so the embedding starts
from it.  Progress milestones 0 / 25 / 50 / 60 precede the chunk loop;
progress 100 and the completion metadata (computed by expanding every
compressed point) follow it. -/
def handleParseLap (parseDate : String → ℚ)
    (cps : List CompressedTelemetryPoint) (lapId : String) :
    List (WorkerResponse TelemetryPoint) :=
  sendProgress lapId 0 ::
    sendProgress lapId 25 ::
    sendProgress lapId 50 ::
    sendProgress lapId 60 ::
    (parseLapLoop lapId cps.length 0 cps ++
      [sendProgress lapId 100,
       sendComplete lapId (calculateMetadata parseDate (cps.map expandTelemetryPoint))])

end Worker

/-- The value produced by `parseCSVValue`: `null`, a number, or a string
(mirroring the dynamic typing of the parsed CSV cells). -/
inductive CSVValue where
  | null
  | num (q : ℚ)
  | str (s : String)
  deriving DecidableEq, Repr

/-- A row object built by `handleParseUpload` (`point[header] = value` on a
fresh `{}`), modelled as the association list of header/value pairs in
header order. -/
abbrev CsvRow : Type := List (String × CSVValue)

namespace Worker

/-- The whitespace recognised by `String.prototype.trim` that can appear in
the telemetry CSVs (space, tab, CR, LF). -/
def jsWhitespace (c : Char) : Bool :=
  c = ' ' || c = '\t' || c = '\r' || c = '\n'

/-- JS `s.trim()`, over the character list of the string (kept
character-level so that it evaluates inside the kernel). -/
def jsTrim (s : String) : String :=
  String.mk (((s.data.dropWhile jsWhitespace).reverse.dropWhile jsWhitespace).reverse)

/-- Auxiliary splitter for `jsSplit` (accumulates the current field in
reverse). -/
def splitCharAux (sep : Char) : List Char → List Char → List String
  | [], acc => [String.mk acc.reverse]
  | c :: rest, acc =>
    if c = sep then String.mk acc.reverse :: splitCharAux sep rest []
    else splitCharAux sep rest (c :: acc)

/-- JS `s.split(sep)` for a one-character separator: the list of fields
between occurrences of `sep` (`''.split(sep) = ['']`, and a trailing
separator yields a trailing empty field, as in JS). -/
def jsSplit (sep : Char) (s : String) : List String :=
  splitCharAux sep s.data []

/-- A decimal numeral with optional sign and fraction part, the fragment of
JS `Number()` syntax exercised by the telemetry CSVs.  Returns `none` where
`Number(value)` is `NaN` (letters, multiple dots, …); `parseCSVValue` only
reaches it with a nonempty trimmed string. -/
def jsNumber (s : String) : Option ℚ :=
  let (sign, rest) : ℚ × List Char :=
    match s.data with
    | '-' :: cs => (-1, cs)
    | '+' :: cs => (1, cs)
    | cs => (1, cs)
  let digitsOf : List Char → Option ℕ := fun t =>
    if t ≠ [] ∧ t.all Char.isDigit then
      some (t.foldl (fun acc c => 10 * acc + (c.toNat - 48)) 0)
    else none
  match rest.splitOnP (· = '.') with
  | [intPart] => (digitsOf intPart).map fun n => sign * n
  | [intPart, fracPart] =>
    match digitsOf intPart, digitsOf fracPart with
    | some n, some f =>
      some (sign * ((n : ℚ) + (f : ℚ) / ((10 : ℚ) ^ fracPart.length)))
    | _, _ => none
  | _ => none

/-- `parseCSVValue` from `telemetryWorker.ts`: empty / `null` / `NULL`
become null, numeric strings become numbers, anything else stays a string.
A missing cell (`values[index]` is `undefined` in JS) reaches this function
as the empty string and is likewise null. -/
def parseCSVValue (value : String) : CSVValue :=
  if value = "" ∨ value = "null" ∨ value = "NULL" then .null
  else
    match jsNumber value with
    | some q => .num q
    | none => .str value

/-- One parsed CSV row:
`headers.forEach((header, index) => point[header] = parseCSVValue(values[index]?.trim()))`. -/
def parseRow (headers : List String) (line : String) : CsvRow :=
  let values := jsSplit ',' line
  headers.enum.map fun hi => (hi.2, parseCSVValue (jsTrim (values.getD hi.1 "")))

/-- JS falsiness for a `CSVValue` (`undefined`/`null`, `0`, `""`). -/
def csvFalsy : CSVValue → Bool
  | .null => true
  | .num q => q = 0
  | .str s => s = ""

/-- Property access `row[name]` on a parsed row (a missing property is
`undefined`, which behaves like null in every use below). -/
def rowGet (row : CsvRow) (name : String) : CSVValue :=
  ((row.find? fun hv => hv.1 == name).map Prod.snd).getD .null

/-- `row.timestamp || row.meta_time` for a dynamic row. -/
def rowTsOrMeta (row : CsvRow) : CSVValue :=
  let t := rowGet row "timestamp"
  if csvFalsy t then rowGet row "meta_time" else t

/-- `calculateMetadata` as invoked from the `PARSE_UPLOAD` path, where the
points are dynamic row objects.  `parseDateV` models `new Date(v).getTime()`
on a dynamic value.  The speed statistics keep exactly the numeric speeds
(`s !== null && !isNaN(s)`: null and undefined speeds are filtered, and the
only non-numbers `parseCSVValue` produces are non-numeric strings, which
fail `!isNaN`). -/
def calculateMetadataRows (parseDateV : CSVValue → ℚ) (points : List CsvRow) :
    LapMetadata :=
  match points with
  | [] => ⟨0, 0, 0⟩
  | p0 :: _ =>
    let firstTime := parseDateV (rowTsOrMeta p0)
    let lastTime := parseDateV (rowTsOrMeta (points.getD (points.length - 1) p0))
    let duration := (lastTime - firstTime) / 1000
    let speeds := points.filterMap fun p =>
      match rowGet p "speed" with
      | .num q => some q
      | _ => none
    let maxSpeed := match speeds with
      | [] => 0
      | s :: rest => rest.foldl max s
    let avgSpeed := if speeds.length = 0 then 0 else speeds.sum / speeds.length
    ⟨max duration 0, maxSpeed, avgSpeed⟩

/-- The chunked row loop of `handleParseUpload`:
`for (let i = 1; i < lines.length; i += 1000)` parses up to 1000 rows,
emits them as a chunk, then a progress message
`min(40 + ((i + 1000 - 1) / totalRows) * 55, 95)`. -/
def parseUploadLoop (filename : String) (headers : List String)
    (totalRows : ℕ) : ℕ → List String → List (WorkerResponse CsvRow)
  | _, [] => []
  | i, line :: rest =>
    let chunk := ((line :: rest).take 1000).map (parseRow headers)
    sendChunk filename chunk ::
      sendProgress filename
        (min (40 + (((i : ℚ) + 1000 - 1) / (totalRows : ℚ)) * 55) 95) ::
      parseUploadLoop filename headers totalRows (i + 1000)
        ((line :: rest).drop 1000)
  termination_by _ l => l.length
  decreasing_by simp only [List.length_drop, List.length_cons]; omega

/-- `handleParseUpload` from `telemetryWorker.ts`, as the ordered list of
messages it posts.  `csvText` is the UTF-8 decoding of the uploaded bytes.
The first line is the header row; the remaining lines are parsed twice, once
chunked for streaming and once whole for the metadata, exactly as in the
source.  Note there is no emptiness check: zero data rows still end in a
`COMPLETE` message (whose metadata is all zeroes). -/
def handleParseUpload (parseDateV : CSVValue → ℚ)
    (csvText : String) (filename : String) : List (WorkerResponse CsvRow) :=
  let lines := jsSplit '\n' (jsTrim csvText)
  let headers := (jsSplit ',' (lines.headD "")).map jsTrim
  let allPoints := (lines.drop 1).map (parseRow headers)
  sendProgress filename 0 ::
    sendProgress filename 25 ::
    sendProgress filename 40 ::
    (parseUploadLoop filename headers (lines.length - 1) 1 (lines.drop 1) ++
      [sendProgress filename 100,
       sendComplete filename (calculateMetadataRows parseDateV allPoints)])

end Worker

/-! ## Worker pool manager (`dashboard/src/workers/workerPool.ts`) -/

namespace WorkerPool

/-- `TaskPriority.LOW` (= 0). -/
def LOW : ℕ := 0

/-- `TaskPriority.NORMAL` (= 1). -/
def NORMAL : ℕ := 1

/-- `TaskPriority.HIGH` (= 2). -/
def HIGH : ℕ := 2

/-- `WorkerTask`: a queued pool task.  The callback and resolve/reject
closures are not data; their invocations are modelled as `PoolEvent`s
emitted by the transition functions. -/
structure WorkerTask where
  id : String
  priority : ℕ
  request : WorkerRequest
  deriving DecidableEq, Repr

/-- `PoolWorker`: one slot of the pool (`busy` flag and the id of the task
currently assigned; the underlying `Worker` handle carries no state the
verified properties depend on). -/
structure PoolWorker where
  busy : Bool
  currentTaskId : Option String
  deriving DecidableEq, Repr

/-- The mutable state of a `WorkerPool` instance: the worker slots and the
pending task queue. -/
structure PoolState where
  workers : List PoolWorker
  taskQueue : List WorkerTask
  deriving DecidableEq, Repr

/-- Observable effects of a pool transition: a callback invocation or a
settlement of the task's promise. -/
inductive PoolEvent where
  | progressCb (id : String) (p : ℚ)
  | chunkCb (id : String) (c : List TelemetryPoint)
  | completeCb (id : String) (m : LapMetadata)
  | resolvedPromise (id : String) (m : LapMetadata)
  | errorCb (id : String) (e : String)
  | rejectedPromise (id : String) (e : String)
  deriving DecidableEq, Repr

/-- The comparator of the dispatch loop's
`taskQueue.sort((a, b) => b.priority - a.priority)`:
`a` may precede `b` iff `b.priority ≤ a.priority`. -/
def taskGE (a b : WorkerTask) : Prop := b.priority ≤ a.priority

instance : DecidableRel taskGE := fun a b => Nat.decLe b.priority a.priority

instance : IsTotal WorkerTask taskGE :=
  ⟨fun a b => Nat.le_total b.priority a.priority⟩

instance : IsTrans WorkerTask taskGE :=
  ⟨fun _ _ _ h h2 => Nat.le_trans h2 h⟩

/-- `taskQueue.sort((a, b) => b.priority - a.priority)`: ECMAScript
`Array.prototype.sort` is required to be stable and to order the array
consistently with the comparator; the stable sorted permutation is unique,
so the insertion sort (which is stable for `taskGE`) is a faithful model. -/
def sortTasks (q : List WorkerTask) : List WorkerTask :=
  q.insertionSort taskGE

/-- `findTaskById` from `workerPool.ts`: looks the id up in `taskQueue`
(note: only in the pending queue — a task removed from the queue by the
dispatch step can no longer be found). -/
def findTaskById (queue : List WorkerTask) (taskId : Option String) :
    Option WorkerTask :=
  match taskId with
  | none => none
  | some id => queue.find? fun t => t.id == id

/-- `processNextTask` from `workerPool.ts`: if the queue is nonempty and an
idle worker exists (the first such, as found by `workers.find`), sort the
queue by descending priority, shift the head task off the queue, and assign
it to that worker. -/
def processNextTask (s : PoolState) : PoolState :=
  if s.taskQueue.isEmpty then s
  else
    match s.workers.findIdx? (fun w => !w.busy) with
    | none => s
    | some wIdx =>
      match sortTasks s.taskQueue with
      | [] => s
      | t :: rest =>
        { workers := s.workers.set wIdx { busy := true, currentTaskId := some t.id }
          taskQueue := rest }

/-- `completeTask` from `workerPool.ts`: mark the worker idle, drop the task
association, and run the dispatch loop again. -/
def completeTask (s : PoolState) (wIdx : ℕ) : PoolState :=
  processNextTask
    { s with workers := s.workers.set wIdx { busy := false, currentTaskId := none } }

/-- `handleWorkerMessage` from `workerPool.ts`: look up the task assigned to
this worker via `findTaskById(poolWorker.currentTaskId)` and dispatch on the
message type; `COMPLETE` and `ERROR` settle the promise and free the worker.
If the lookup fails the message is dropped (`if (!task) return`). -/
def handleWorkerMessage (s : PoolState) (wIdx : ℕ)
    (response : WorkerResponse TelemetryPoint) : PoolState × List PoolEvent :=
  match s.workers.get? wIdx with
  | none => (s, [])
  | some pw =>
    match findTaskById s.taskQueue pw.currentTaskId with
    | none => (s, [])
    | some task =>
      match response with
      | .progress _ p => (s, [.progressCb task.id p])
      | .chunk _ c => (s, [.chunkCb task.id c])
      | .complete _ m =>
        (completeTask s wIdx, [.completeCb task.id m, .resolvedPromise task.id m])
      | .error _ e =>
        (completeTask s wIdx, [.errorCb task.id e, .rejectedPromise task.id e])

/-- `enqueue` from `workerPool.ts`: derive the task id from the request
(`lapId`, else `filename`, else a timestamped fallback), push the task onto
the queue, and attempt a dispatch.  Returns the new state and the derived
task id (the promise is settled later by `handleWorkerMessage` events). -/
def enqueue (now : ℕ) (s : PoolState) (request : WorkerRequest)
    (priority : ℕ) : PoolState × String :=
  let taskId := match request with
    | .parseLap _ lapId => lapId
    | .parseUpload _ filename => filename
    | .downsample _ _ => "task_" ++ toString now
  let task : WorkerTask := ⟨taskId, priority, request⟩
  (processNextTask { s with taskQueue := s.taskQueue ++ [task] }, taskId)

end WorkerPool

/-! ## Persistent cache (`dashboard/src/utils/cache.ts`)

The IndexedDB object store `laps` is modelled as a list of `CacheEntry`
records with unique keys (`keyPath: 'key'`); `db.put` is an upsert by key,
`db.delete` removes by key and `db.getAll` returns the entries.  A storage
backend failure (storage unavailable, quota exceeded, …) is modelled by the
flag `ok : Bool` of the primitive operations: when `ok` is `false` every
primitive rejects, which the embedded functions observe through
`Except String`, mirroring the `try`/`catch` structure of the source. -/

namespace Cache

/-- `DB_VERSION = 2` — the comment in the source reads "Incremented to
invalidate old cache (added 'ath' field support)". -/
def DB_VERSION : ℕ := 2

/-- `MAX_CACHE_ENTRIES = 20`. -/
def MAX_CACHE_ENTRIES : ℕ := 20

/-- `CacheEntry` from `cache.ts`. -/
structure CacheEntry where
  key : String
  trackId : String
  driverNumber : ℤ
  lapNumber : ℤ
  data : LapTelemetry
  size : ℕ
  timestamp : ℕ
  deriving DecidableEq, Repr

/-- The contents of the `laps` object store. -/
abbrev CacheState : Type := List CacheEntry

/-- `generateCacheKey`: the template literal
`{trackId}_{driverNumber}_{lapNumber}`. -/
def generateCacheKey (trackId : String) (driverNumber lapNumber : ℤ) : String :=
  trackId ++ "_" ++ toString driverNumber ++ "_" ++ toString lapNumber

/-- `estimateDataSize`: `points.length * 200 + 1000`. -/
def estimateDataSize (data : LapTelemetry) : ℕ :=
  data.points.length * 200 + 1000

/-- `db.put(STORE_NAME, entry)` on a store with `keyPath: 'key'`: replace
the entry with the same key if present, otherwise add the entry. -/
def putEntry (s : CacheState) (e : CacheEntry) : CacheState :=
  if s.any fun f => f.key == e.key then
    s.map fun f => if f.key == e.key then e else f
  else s ++ [e]

/-- `db.get(STORE_NAME, key)`, rejecting on backend failure. -/
def dbGet (ok : Bool) (s : CacheState) (key : String) :
    Except String (Option CacheEntry) :=
  if ok then .ok (s.find? fun e => e.key == key) else .error "backend failure"

/-- `db.put(STORE_NAME, entry)`, rejecting on backend failure. -/
def dbPut (ok : Bool) (s : CacheState) (e : CacheEntry) :
    Except String CacheState :=
  if ok then .ok (putEntry s e) else .error "backend failure"

/-- `db.delete(STORE_NAME, key)` inside a transaction: removes every entry
with that key (at most one, since keys are unique in the store). -/
def deleteKey (s : CacheState) (key : String) : CacheState :=
  s.filter fun e => e.key != key

/-- The comparator of eviction's `allEntries.sort((a, b) => a.timestamp -
b.timestamp)` (ascending last-access time). -/
def entryLE (a b : CacheEntry) : Prop := a.timestamp ≤ b.timestamp

instance : DecidableRel entryLE := fun a b => Nat.decLe a.timestamp b.timestamp

instance : IsTotal CacheEntry entryLE := ⟨fun a b => Nat.le_total a.timestamp b.timestamp⟩

instance : IsTrans CacheEntry entryLE := ⟨fun _ _ _ h h2 => Nat.le_trans h h2⟩

/-- The eviction sort (stable, ascending timestamps; as with the task queue,
the stable sorted permutation required of `Array.prototype.sort` is unique,
so insertion sort is a faithful model). -/
def sortEntries (s : CacheState) : CacheState :=
  s.insertionSort entryLE

/-- `evictOldEntries` from `cache.ts`: with at most `MAX_CACHE_ENTRIES`
entries do nothing; otherwise sort ascending by timestamp and delete the
first `length - MAX_CACHE_ENTRIES` entries by key.  Its own `try`/`catch`
swallows backend failures (the state is unchanged when the transaction
rejects), so it never throws. -/
def evictOldEntries (ok : Bool) (s : CacheState) : CacheState :=
  if ok = false then s
  else if s.length ≤ MAX_CACHE_ENTRIES then s
  else
    let sorted := sortEntries s
    let entriesToRemove := s.length - MAX_CACHE_ENTRIES
    (sorted.take entriesToRemove).foldl (fun st e => deleteKey st e.key) s

/-- `getCachedLap` from `cache.ts`: on a hit, refresh the entry's timestamp
to `now` (`Date.now()`), write it back, and return the stored data; on a
miss return null; the surrounding `try`/`catch` converts any backend
failure into a null result (never a thrown error). -/
def getCachedLap (ok : Bool) (now : ℕ) (s : CacheState)
    (trackId : String) (driverNumber lapNumber : ℤ) :
    Except String (Option LapTelemetry × CacheState) :=
  let key := generateCacheKey trackId driverNumber lapNumber
  match dbGet ok s key with
  | .error _ => .ok (none, s)                   -- catch: log, return null
  | .ok none => .ok (none, s)                   -- miss
  | .ok (some entry) =>
    match dbPut ok s { entry with timestamp := now } with
    | .error _ => .ok (none, s)                 -- catch: log, return null
    | .ok s2 => .ok (some entry.data, s2)

/-- The `CacheEntry` object literal built inside `setCachedLap`: derived
key, the identifying fields, the data, an estimated size and a fresh
last-access timestamp (`Date.now()`). -/
def mkCacheEntry (now : ℕ) (trackId : String) (driverNumber lapNumber : ℤ)
    (data : LapTelemetry) : CacheEntry :=
  { key := generateCacheKey trackId driverNumber lapNumber
    trackId := trackId, driverNumber := driverNumber
    lapNumber := lapNumber, data := data
    size := estimateDataSize data, timestamp := now }

/-- `setCachedLap` from `cache.ts`: build the entry (fresh timestamp,
estimated size), `db.put` it, then run eviction.  Its `catch` block does
NOT swallow the failure: it logs and then rethrows
`new Error("Failed to cache lap: ...")`. -/
def setCachedLap (ok : Bool) (now : ℕ) (s : CacheState)
    (trackId : String) (driverNumber lapNumber : ℤ) (data : LapTelemetry) :
    Except String CacheState :=
  let entry := mkCacheEntry now trackId driverNumber lapNumber data
  match dbPut ok s entry with
  | .error e => .error ("Failed to cache lap: " ++ e)   -- catch: log and rethrow
  | .ok s2 => .ok (evictOldEntries ok s2)

/-- `deleteCachedLap` from `cache.ts`: delete by key; its `catch` swallows
backend failures (resolves without effect). -/
def deleteCachedLap (ok : Bool) (s : CacheState)
    (trackId : String) (driverNumber lapNumber : ℤ) : Except String CacheState :=
  if ok then .ok (deleteKey s (generateCacheKey trackId driverNumber lapNumber))
  else .ok s                                    -- catch: log, resolve anyway

/-- `clearAllCache` from `cache.ts`: clear the store; its `catch` swallows
backend failures. -/
def clearAllCache (ok : Bool) (s : CacheState) : Except String CacheState :=
  if ok then .ok [] else .ok s                  -- catch: log, resolve anyway

/-- The persisted IndexedDB database: its stored version and the `laps`
object store (`none` when the store does not exist yet). -/
structure PersistedDB where
  version : ℕ
  laps : Option CacheState

/-- The `upgrade(db)` callback passed to `openDB` in `getDB`: it only
creates the `laps` object store (plus indexes) when it does not already
exist.  It never deletes an existing store or its entries. -/
def upgradeCallback (laps : Option CacheState) : Option CacheState :=
  match laps with
  | none => some []           -- createObjectStore(STORE_NAME, { keyPath: 'key' })
  | some s => some s          -- store exists: nothing to do

/-- `getDB` / `openDB(DB_NAME, DB_VERSION, { upgrade })`: per IndexedDB
semantics, when the persisted version is below the requested `DB_VERSION`
the upgrade callback runs against the existing stores and the version is
bumped; otherwise the database is opened as is. -/
def getDB (persisted : PersistedDB) : PersistedDB :=
  if persisted.version < DB_VERSION then
    { version := DB_VERSION, laps := upgradeCallback persisted.laps }
  else persisted

end Cache

/-! ## Supporting lemmas -/

/-- The LTTB bucket loop pushes exactly one point per remaining iteration. -/
theorem lttbGo_length (data : List α) (d0 : α) (x y : α → ℚ) (bs : ℚ) (n : ℕ) :
    ∀ (k i : ℕ) (last : α), (lttbGo data d0 x y bs n k i last).length = k := by
  intro k
  induction k with
  | zero => intro i last; rfl
  | succ k ih => intro i last; simp only [lttbGo, List.length_cons, ih]

/-! ## Claims -/

/-- C1: the pool is supposed to route a terminal worker message to the
assigned task, fire its callback, settle its promise and free the worker.
In the code, `findTaskById` searches `taskQueue`, from which
`processNextTask` removed the task at dispatch: after enqueueing a single
`PARSE_LAP` task into a one-worker pool (which dispatches it immediately,
leaving the queue empty), a `COMPLETE` message from the worker is dropped —
the state is unchanged (the slot stays busy with the task id) and no
callback or promise-settlement event occurs. -/
theorem claim_C1_terminal_message_dropped :
    (WorkerPool.enqueue 0 ⟨[⟨false, none⟩], []⟩ (.parseLap "url" "lap1")
        WorkerPool.NORMAL).1 =
      (⟨[⟨true, some "lap1"⟩], []⟩ : WorkerPool.PoolState) ∧
    WorkerPool.handleWorkerMessage ⟨[⟨true, some "lap1"⟩], []⟩ 0
        (.complete "lap1" ⟨100, 200, 150⟩) =
      (⟨[⟨true, some "lap1"⟩], []⟩, []) := by
  exact ⟨rfl, rfl⟩

/-- C9: the source bumps `DB_VERSION` to 2 with the comment "Incremented to
invalidate old cache", but the `upgrade` callback only creates the `laps`
store when absent and never wipes it.  Upgrading a version-1 database that
already holds an entry leaves the entry in place, and `getCachedLap` then
returns the pre-bump data as a valid hit (refreshing its timestamp). -/
theorem claim_C9_old_entry_survives_upgrade :
    Cache.getDB ⟨1, some [⟨"t_1_1", "t", 1, 1, ⟨1, 1, [], [], ⟨9, 9, 9⟩⟩, 1000, 5⟩]⟩ =
      ⟨Cache.DB_VERSION, some [⟨"t_1_1", "t", 1, 1, ⟨1, 1, [], [], ⟨9, 9, 9⟩⟩, 1000, 5⟩]⟩ ∧
    Cache.getCachedLap true 99 [⟨"t_1_1", "t", 1, 1, ⟨1, 1, [], [], ⟨9, 9, 9⟩⟩, 1000, 5⟩]
        "t" 1 1 =
      .ok (some ⟨1, 1, [], [], ⟨9, 9, 9⟩⟩,
        [⟨"t_1_1", "t", 1, 1, ⟨1, 1, [], [], ⟨9, 9, 9⟩⟩, 1000, 99⟩]) := by
  exact ⟨rfl, rfl⟩

/-- C6 counterexample: with a failing storage backend, `setCachedLap` does
not degrade to a logged no-op — its `catch` rethrows, so the caller receives
a thrown `Error` wrapping the backend failure. -/
theorem claim_C6_counterexample_set_rethrows :
    Cache.setCachedLap false 0 [] "t" 1 1 ⟨1, 1, [], [], ⟨0, 0, 0⟩⟩ =
      .error "Failed to cache lap: backend failure" := rfl

/-- C4 counterexample: the standalone `downsampleLTTB` has no `threshold < 3`
guard; with three points and threshold 2 it degenerates to the two-point
list `[first, last]` instead of returning the input unchanged. -/
theorem claim_C4_counterexample_standalone_degenerates :
    downsampleLTTB [(0 : ℚ), 1, 2] 2 id id = [0, 2] ∧
    downsampleLTTB [(0 : ℚ), 1, 2] 2 id id ≠ [(0 : ℚ), 1, 2] := by
  exact ⟨by decide, by decide⟩

/-- C10 counterexample: on a one-point input with threshold 0 the guard
`data.length <= threshold` fails, the loop body never runs, and the result
is the first point followed by the last point — `[p, p]`, which is not a
subsequence of `[p]` (its index sequence 0, 0 is not strictly increasing). -/
theorem claim_C10_counterexample_duplicated_endpoint :
    downsampleLTTB [(7 : ℚ)] 0 id id = [7, 7] ∧
    ¬ (downsampleLTTB [(7 : ℚ)] 0 id id).Sublist [(7 : ℚ)] := by
  exact ⟨by decide, by decide⟩

/-- C8 (amended): a `PARSE_UPLOAD` whose data yields zero rows (the trimmed
text has a single line, i.e. only a header) does not produce an `ERROR`: the
worker runs to completion and emits `COMPLETE` with all-zero metadata
(`duration = maxSpeed = avgSpeed = 0`), with no chunk messages. -/
theorem claim_C8_zero_rows_completes_with_zero_metadata
    (parseDateV : CSVValue → ℚ) (csvText filename : String)
    (h : (Worker.jsSplit '\n' (Worker.jsTrim csvText)).length = 1) :
    Worker.handleParseUpload parseDateV csvText filename =
      [.progress filename 0, .progress filename 25, .progress filename 40,
       .progress filename 100, .complete filename ⟨0, 0, 0⟩] ∧
    ∀ e, (WorkerResponse.error filename e) ∉
      Worker.handleParseUpload parseDateV csvText filename := by
  obtain ⟨a, ha⟩ := List.length_eq_one.mp h
  have heq : Worker.handleParseUpload parseDateV csvText filename =
      [.progress filename 0, .progress filename 25, .progress filename 40,
       .progress filename 100, .complete filename ⟨0, 0, 0⟩] := by
    simp only [Worker.handleParseUpload, ha, List.headD_cons, List.drop_succ_cons,
      List.drop_nil, List.length_cons, List.length_nil, Worker.parseUploadLoop,
      List.map_nil, Worker.calculateMetadataRows, Worker.sendProgress,
      Worker.sendComplete, List.nil_append]
    norm_num
  refine ⟨heq, fun e hmem => ?_⟩
  rw [heq] at hmem
  simp only [List.mem_cons, List.not_mem_nil, or_false] at hmem
  rcases hmem with h1 | h1 | h1 | h1 | h1 <;> exact absurd h1 (by simp)

/-- C8 witness: the single-line file "a,b" (a header, zero data rows). -/
theorem claim_C8_witness :
    (Worker.jsSplit '\n' (Worker.jsTrim "a,b")).length = 1 ∧
    Worker.handleParseUpload (fun _ => (0 : ℚ)) "a,b" "f.csv" =
      [.progress "f.csv" 0, .progress "f.csv" 25, .progress "f.csv" 40,
       .progress "f.csv" 100, .complete "f.csv" ⟨0, 0, 0⟩] :=
  ⟨by decide,
   (claim_C8_zero_rows_completes_with_zero_metadata (fun _ => 0) "a,b" "f.csv"
      (by decide)).1⟩

/-- C8 counterexample: for the header-only upload "a,b" the claim's required
behaviour (an `ERROR` message rather than a zero-metadata `COMPLETE`) fails:
the emitted messages contain `COMPLETE` with zeroed metadata and contain no
`ERROR` message for the task. -/
theorem claim_C8_counterexample_header_only_upload :
    (WorkerResponse.complete "f.csv" ⟨0, 0, 0⟩) ∈
      Worker.handleParseUpload (fun _ => (0 : ℚ)) "a,b" "f.csv" ∧
    ∀ e, (WorkerResponse.error "f.csv" e) ∉
      Worker.handleParseUpload (fun _ => (0 : ℚ)) "a,b" "f.csv" := by
  have heq : Worker.handleParseUpload (fun _ => (0 : ℚ)) "a,b" "f.csv" =
      [.progress "f.csv" 0, .progress "f.csv" 25, .progress "f.csv" 40,
       .progress "f.csv" 100, .complete "f.csv" ⟨0, 0, 0⟩] := by
    have h : Worker.jsSplit '\n' (Worker.jsTrim "a,b") = ["a,b"] := by decide
    simp only [Worker.handleParseUpload, h, List.headD_cons, List.drop_succ_cons,
      List.drop_nil, List.length_cons, List.length_nil, Worker.parseUploadLoop,
      List.map_nil, Worker.calculateMetadataRows, Worker.sendProgress,
      Worker.sendComplete, List.nil_append]
    norm_num
  rw [heq]
  refine ⟨by simp, fun e hmem => ?_⟩
  simp only [List.mem_cons, List.not_mem_nil, or_false] at hmem
  rcases hmem with h1 | h1 | h1 | h1 | h1 <;> exact absurd h1 (by simp)

namespace Worker

/-- The chunk payload of a worker message, if it is a `CHUNK` message. -/
def chunkPayload : WorkerResponse π → Option (List π)
  | .chunk _ c => some c
  | _ => none

/-- The chunk messages emitted by the `handleParseLap` loop reassemble, in
emission order, to the expansion of the remaining compressed points, and
every chunk holds at most 1000 points. -/
theorem parseLapLoop_chunks (lapId : String) (total : ℕ) :
    ∀ (l : List CompressedTelemetryPoint) (i : ℕ),
      ((parseLapLoop lapId total i l).filterMap chunkPayload).flatten =
          l.map expandTelemetryPoint ∧
      ∀ c ∈ (parseLapLoop lapId total i l).filterMap chunkPayload,
        c.length ≤ 1000 := by
  have H : ∀ (n : ℕ) (l : List CompressedTelemetryPoint), l.length ≤ n → ∀ i : ℕ,
      ((parseLapLoop lapId total i l).filterMap chunkPayload).flatten =
          l.map expandTelemetryPoint ∧
      ∀ c ∈ (parseLapLoop lapId total i l).filterMap chunkPayload,
        c.length ≤ 1000 := by
    intro n
    induction n with
    | zero =>
      intro l hl i
      have hnil : l = [] := List.eq_nil_of_length_eq_zero (Nat.le_zero.mp hl)
      subst hnil
      simp [parseLapLoop, chunkPayload]
    | succ n ih =>
      intro l hl i
      match l with
      | [] => simp [parseLapLoop, chunkPayload]
      | p :: rest =>
        have hrec := ih ((p :: rest).drop 1000)
          (by simp only [List.length_drop, List.length_cons]
              simp only [List.length_cons] at hl; omega) (i + 1000)
        rw [parseLapLoop]
        simp only [sendChunk, sendProgress, List.filterMap_cons, chunkPayload,
          List.flatten_cons]
        refine ⟨?_, ?_⟩
        · rw [hrec.1, ← List.map_append, List.take_append_drop]
        · intro c hc
          simp only [List.mem_cons] at hc
          rcases hc with rfl | hc
          · simp
          · exact hrec.2 c hc
  intro l i
  exact H l.length l (Nat.le_refl _) i

end Worker

/-- C2: for a `PARSE_LAP` payload that decompresses and parses to the
compressed point sequence `cps`, the concatenation, in emission order, of
the point arrays of all `CHUNK` messages the worker emits equals the
pointwise `expandTelemetryPoint` expansion of `cps` — no drops, duplicates
or reordering — and every chunk is a slice of at most 1000 points. -/
theorem claim_C2_chunk_reassembly (parseDate : String → ℚ)
    (cps : List CompressedTelemetryPoint) (lapId : String) :
    ((Worker.handleParseLap parseDate cps lapId).filterMap Worker.chunkPayload).flatten =
        cps.map Worker.expandTelemetryPoint ∧
    ∀ c ∈ (Worker.handleParseLap parseDate cps lapId).filterMap Worker.chunkPayload,
      c.length ≤ 1000 := by
  have h := Worker.parseLapLoop_chunks lapId cps.length cps 0
  simp only [Worker.handleParseLap, Worker.sendProgress, Worker.sendComplete,
    List.filterMap_cons, Worker.chunkPayload, List.filterMap_append,
    List.filterMap_cons, List.filterMap_nil, List.append_nil] at h ⊢
  exact h

namespace WorkerPool

/-- A list containing an element satisfying `p` has a first index satisfying
`p`. -/
theorem findIdx_exists_of_mem {p : PoolWorker → Bool} :
    ∀ {l : List PoolWorker}, (∃ w ∈ l, p w) → ∃ i, l.findIdx? p = some i := by
  intro l
  induction l with
  | nil => rintro ⟨w, hw, -⟩; exact absurd hw (List.not_mem_nil w)
  | cons a t ih =>
    rintro ⟨w, hw, hpw⟩
    by_cases hpa : p a
    · exact ⟨0, by simp [List.findIdx?_cons, hpa]⟩
    · rcases List.mem_cons.mp hw with rfl | hw2
      · exact absurd hpw hpa
      · obtain ⟨i, hi⟩ := ih ⟨w, hw2, hpw⟩
        exact ⟨i + 1, by simp [List.findIdx?_cons, hpa, hi]⟩

/-- The head of the sorted queue has maximal priority among queued tasks. -/
theorem sortTasks_head_max {q : List WorkerTask} {t : WorkerTask}
    {ts : List WorkerTask} (h : sortTasks q = t :: ts) :
    ∀ u ∈ q, u.priority ≤ t.priority := by
  intro u hu
  have hs : List.Sorted taskGE (t :: ts) := h ▸ List.sorted_insertionSort taskGE q
  have hmem : u ∈ t :: ts := h ▸ (List.perm_insertionSort taskGE q).symm.subset hu
  rcases List.mem_cons.mp hmem with rfl | hmem2
  · exact Nat.le_refl _
  · exact List.rel_of_sorted_cons hs u hmem2

/-- Stability of the queue sort: the head of the sorted queue is the
earliest-queued task among those of its (maximal) priority — every task
queued before it has strictly lower priority. -/
theorem sortTasks_head_stable :
    ∀ (q : List WorkerTask) (t : WorkerTask) (ts : List WorkerTask),
      sortTasks q = t :: ts →
      ∃ pre post, q = pre ++ t :: post ∧ ∀ u ∈ pre, u.priority < t.priority := by
  intro q
  induction q with
  | nil => intro t ts h; simp [sortTasks] at h
  | cons a l ih =>
    intro t ts h
    rw [sortTasks, List.insertionSort] at h
    cases hs : List.insertionSort taskGE l with
    | nil =>
      rw [hs] at h
      simp only [List.orderedInsert] at h
      obtain ⟨rfl, -⟩ := List.cons.injEq .. ▸ h
      · exact ⟨[], l, rfl, by simp⟩
    | cons b m =>
      rw [hs] at h
      rw [List.orderedInsert] at h
      by_cases hab : taskGE a b
      · rw [if_pos hab] at h
        obtain ⟨rfl, -⟩ := List.cons.injEq .. ▸ h
        · exact ⟨[], l, rfl, by simp⟩
      · rw [if_neg hab] at h
        have hbt : b = t := (List.cons.injEq .. ▸ h).1
        subst hbt
        obtain ⟨pre, post, hl, hpre⟩ := ih b m hs
        have hab2 : a.priority < b.priority := by
          unfold taskGE at hab; omega
        refine ⟨a :: pre, post, by rw [hl, List.cons_append], ?_⟩
        intro u hu
        rcases List.mem_cons.mp hu with rfl | hu2
        · exact hab2
        · exact hpre u hu2

end WorkerPool

/-- C7: whenever the dispatch step (`processNextTask`) runs on a state with
a nonempty pending queue and at least one idle worker, it removes from the
queue and assigns to the first idle worker a task `t` of maximal priority
among all pending tasks, and every task queued before `t` has strictly
lower priority (so among equal priorities the earliest-enqueued task is
dispatched, and no lower-priority task is ever dispatched while a
higher-priority task is pending). -/
theorem claim_C7_priority_dispatch (s : WorkerPool.PoolState)
    (hq : s.taskQueue ≠ []) (hw : ∃ w ∈ s.workers, w.busy = false) :
    ∃ (wIdx : ℕ) (t : WorkerPool.WorkerTask) (rest : List WorkerPool.WorkerTask),
      s.workers.findIdx? (fun w => !w.busy) = some wIdx ∧
      WorkerPool.sortTasks s.taskQueue = t :: rest ∧
      WorkerPool.processNextTask s =
        ⟨s.workers.set wIdx ⟨true, some t.id⟩, rest⟩ ∧
      (∀ u ∈ s.taskQueue, u.priority ≤ t.priority) ∧
      ∃ pre post, s.taskQueue = pre ++ t :: post ∧
        ∀ u ∈ pre, u.priority < t.priority := by
  obtain ⟨wIdx, hfind⟩ := @WorkerPool.findIdx_exists_of_mem (fun w => !w.busy)
    s.workers (by obtain ⟨w, hw1, hw2⟩ := hw; exact ⟨w, hw1, by simp [hw2]⟩)
  cases hsort : WorkerPool.sortTasks s.taskQueue with
  | nil =>
    exfalso
    have hlen : (WorkerPool.sortTasks s.taskQueue).length = s.taskQueue.length :=
      (List.perm_insertionSort WorkerPool.taskGE s.taskQueue).length_eq
    rw [hsort] at hlen
    exact hq (List.eq_nil_of_length_eq_zero hlen.symm)
  | cons t rest =>
    refine ⟨wIdx, t, rest, hfind, rfl, ?_, WorkerPool.sortTasks_head_max hsort,
      WorkerPool.sortTasks_head_stable _ _ _ hsort⟩
    unfold WorkerPool.processNextTask
    rw [if_neg (by simpa using hq), hfind, hsort]

/-- C7 witness: the spec's scenario — tasks queued in order Low ("A"),
High ("B"), Normal ("C") with a single idle worker: the dispatch step sends
"B" (High) to the worker and leaves the queue sorted as Normal then Low. -/
theorem claim_C7_witness :
    ∃ (wIdx : ℕ) (t : WorkerPool.WorkerTask) (rest : List WorkerPool.WorkerTask),
      ([(⟨false, none⟩ : WorkerPool.PoolWorker)].findIdx? (fun w => !w.busy) = some wIdx) ∧
      WorkerPool.sortTasks [⟨"A", WorkerPool.LOW, .downsample [] 5⟩,
        ⟨"B", WorkerPool.HIGH, .downsample [] 5⟩,
        ⟨"C", WorkerPool.NORMAL, .downsample [] 5⟩] = t :: rest ∧
      WorkerPool.processNextTask
          ⟨[⟨false, none⟩], [⟨"A", WorkerPool.LOW, .downsample [] 5⟩,
            ⟨"B", WorkerPool.HIGH, .downsample [] 5⟩,
            ⟨"C", WorkerPool.NORMAL, .downsample [] 5⟩]⟩ =
        ⟨[(⟨false, none⟩ : WorkerPool.PoolWorker)].set wIdx ⟨true, some t.id⟩, rest⟩ ∧
      (∀ u ∈ [(⟨"A", WorkerPool.LOW, .downsample [] 5⟩ : WorkerPool.WorkerTask),
          ⟨"B", WorkerPool.HIGH, .downsample [] 5⟩,
          ⟨"C", WorkerPool.NORMAL, .downsample [] 5⟩], u.priority ≤ t.priority) ∧
      ∃ pre post, [(⟨"A", WorkerPool.LOW, .downsample [] 5⟩ : WorkerPool.WorkerTask),
          ⟨"B", WorkerPool.HIGH, .downsample [] 5⟩,
          ⟨"C", WorkerPool.NORMAL, .downsample [] 5⟩] = pre ++ t :: post ∧
        ∀ u ∈ pre, u.priority < t.priority :=
  claim_C7_priority_dispatch
    ⟨[⟨false, none⟩], [⟨"A", WorkerPool.LOW, .downsample [] 5⟩,
      ⟨"B", WorkerPool.HIGH, .downsample [] 5⟩,
      ⟨"C", WorkerPool.NORMAL, .downsample [] 5⟩]⟩
    (by decide) ⟨⟨false, none⟩, by simp, rfl⟩

/-- For a nonempty list, `getLast?` is the element at index `length - 1`. -/
theorem getLast?_eq_getD (data : List α) (d0 : α) (h : data ≠ []) :
    data.getLast? = some (data.getD (data.length - 1) d0) := by
  have hn : data.length - 1 < data.length := by
    cases data with
    | nil => exact absurd rfl h
    | cons a t => simp
  rw [List.getLast?_eq_getElem?, List.getElem?_eq_getElem hn]
  exact congrArg some (List.getD_eq_getElem data d0 hn).symm

/-- The LTTB body always returns `2 + (threshold - 2)` points. -/
theorem lttbCore_length (data : List α) (d0 : α) (x y : α → ℚ) (T : ℕ) :
    (lttbCore data d0 x y T).length = 2 + (T - 2) := by
  simp only [lttbCore, List.cons_append, List.length_cons, List.length_append,
    lttbGo_length, List.length_nil]
  omega

/-- The LTTB body starts with the first point. -/
theorem lttbCore_head (data : List α) (d0 : α) (x y : α → ℚ) (T : ℕ) :
    (lttbCore data d0 x y T).head? = some d0 := by
  simp [lttbCore]

/-- The LTTB body ends with `data[data.length - 1]`. -/
theorem lttbCore_last (data : List α) (d0 : α) (x y : α → ℚ) (T : ℕ) :
    (lttbCore data d0 x y T).getLast? = some (data.getD (data.length - 1) d0) := by
  simp only [lttbCore, List.getLast?_concat]

/-- C4 (amended): both functions pass the input through unchanged when
`N ≤ T`, and the worker's `downsampleTelemetry` also does so when `T < 3`;
but the standalone `downsampleLTTB` has no `threshold < 3` guard, and for
`T < 3 < ...` with `T < N` it instead degenerates to the two-point list
`[first, last]`. -/
theorem claim_C4_passthrough_amended :
    (∀ (α : Type) (data : List α) (threshold : ℕ) (x y : α → ℚ),
        data.length ≤ threshold → downsampleLTTB data threshold x y = data) ∧
    (∀ (parseDate : String → ℚ) (points : List TelemetryPoint) (threshold : ℕ),
        points.length ≤ threshold ∨ threshold < 3 →
        Worker.downsampleTelemetry parseDate points threshold = points) ∧
    (∀ (α : Type) (data : List α) (threshold : ℕ) (x y : α → ℚ),
        threshold < 3 → threshold < data.length →
        ∃ a b, data.head? = some a ∧ data.getLast? = some b ∧
          downsampleLTTB data threshold x y = [a, b]) := by
  refine ⟨?_, ?_, ?_⟩
  · intro α data threshold x y h
    rw [downsampleLTTB.eq_def, if_pos h]
  · intro parseDate points threshold h
    rw [Worker.downsampleTelemetry.eq_def, if_pos h]
  · intro α data threshold x y h3 hlen
    cases data with
    | nil => exact absurd hlen (by simp)
    | cons d0 rest =>
      refine ⟨d0, (d0 :: rest).getD ((d0 :: rest).length - 1) d0, rfl,
        getLast?_eq_getD _ d0 (by simp), ?_⟩
      have hk : threshold - 2 = 0 := by omega
      rw [downsampleLTTB, if_neg (by omega)]
      simp only [lttbCore, hk, lttbGo, List.cons_append, List.nil_append]

/-- C4 witness: pass-through instances for both functions
(`N = 2 ≤ 5 = T` standalone; `T = 0 < 3` worker), and the degenerate
standalone case `N = 3 > 2 = T`. -/
theorem claim_C4_passthrough_amended_witness :
    downsampleLTTB [(0 : ℚ), 1] 5 id id = [(0 : ℚ), 1] ∧
    Worker.downsampleTelemetry (fun _ => 0) [] 0 = [] ∧
    ∃ a b, ([(0 : ℚ), 1, 2].head? = some a ∧ [(0 : ℚ), 1, 2].getLast? = some b ∧
      downsampleLTTB [(0 : ℚ), 1, 2] 2 id id = [a, b]) :=
  ⟨claim_C4_passthrough_amended.1 ℚ [0, 1] 5 id id (by decide),
   claim_C4_passthrough_amended.2.1 (fun _ => 0) [] 0 (Or.inr (by decide)),
   claim_C4_passthrough_amended.2.2 ℚ [0, 1, 2] 2 id id (by decide) (by decide)⟩

/-- C3: for `3 ≤ T < N`, both the standalone `downsampleLTTB` and the
worker's `downsampleTelemetry` return exactly `T` points, whose first
element is the input's first element and whose last element is the input's
last element. -/
theorem claim_C3_lttb_bounds :
    (∀ (α : Type) (data : List α) (T : ℕ) (x y : α → ℚ),
        3 ≤ T → T < data.length →
        (downsampleLTTB data T x y).length = T ∧
        (downsampleLTTB data T x y).head? = data.head? ∧
        (downsampleLTTB data T x y).getLast? = data.getLast?) ∧
    (∀ (parseDate : String → ℚ) (points : List TelemetryPoint) (T : ℕ),
        3 ≤ T → T < points.length →
        (Worker.downsampleTelemetry parseDate points T).length = T ∧
        (Worker.downsampleTelemetry parseDate points T).head? = points.head? ∧
        (Worker.downsampleTelemetry parseDate points T).getLast? =
          points.getLast?) := by
  constructor
  · intro α data T x y hT hN
    cases data with
    | nil => exact absurd hN (by simp)
    | cons d0 rest =>
      rw [downsampleLTTB, if_neg (by omega)]
      refine ⟨by rw [lttbCore_length]; omega, by rw [lttbCore_head]; rfl, ?_⟩
      rw [lttbCore_last, getLast?_eq_getD (d0 :: rest) d0 (by simp)]
  · intro parseDate points T hT hN
    cases points with
    | nil => exact absurd hN (by simp)
    | cons p0 rest =>
      rw [Worker.downsampleTelemetry, if_neg (by push_neg; omega)]
      refine ⟨by rw [lttbCore_length]; omega, by rw [lttbCore_head]; rfl, ?_⟩
      rw [lttbCore_last, getLast?_eq_getD (p0 :: rest) p0 (by simp)]

/-- The fold underlying `scanMaxIdx` returns either its initial index or an
index from the scanned list. -/
theorem scanFoldl_mem (f : ℕ → ℚ) :
    ∀ (l : List ℕ) (st : ℚ × ℕ),
      (l.foldl (fun st j => if st.1 < f j then (f j, j) else st) st).2 = st.2 ∨
      (l.foldl (fun st j => if st.1 < f j then (f j, j) else st) st).2 ∈ l := by
  intro l
  induction l with
  | nil => intro st; exact Or.inl rfl
  | cons a t ih =>
    intro st
    rw [List.foldl_cons]
    rcases ih (if st.1 < f a then (f a, a) else st) with h | h
    · rw [h]
      by_cases hc : st.1 < f a
      · rw [if_pos hc]; exact Or.inr (List.mem_cons_self a t)
      · rw [if_neg hc]; exact Or.inl rfl
    · exact Or.inr (List.mem_cons_of_mem a h)

/-- The selected bucket index stays within the (nonempty) bucket. -/
theorem scanMaxIdx_bounds (f : ℕ → ℚ) (lo len : ℕ) (h : 0 < len) :
    lo ≤ scanMaxIdx f lo len ∧ scanMaxIdx f lo len < lo + len := by
  unfold scanMaxIdx
  rcases scanFoldl_mem f (List.range' lo len) (-1, lo) with hm | hm
  · rw [hm]; exact ⟨Nat.le_refl lo, by omega⟩
  · exact List.mem_range'_1.mp hm

/-- With bucket size at least 1, consecutive bucket boundaries are strictly
increasing (so every bucket is nonempty). -/
theorem bucketBound_strict {bs : ℚ} (hbs : 1 ≤ bs) (t : ℕ) :
    bucketBound bs t < bucketBound bs (t + 1) := by
  unfold bucketBound
  have h0 : (0 : ℚ) ≤ (t : ℚ) * bs :=
    mul_nonneg (Nat.cast_nonneg t) (le_trans zero_le_one hbs)
  have hstep : ⌊(t : ℚ) * bs⌋ + 1 ≤ ⌊((t + 1 : ℕ) : ℚ) * bs⌋ := by
    have h1 : (t : ℚ) * bs + 1 ≤ ((t + 1 : ℕ) : ℚ) * bs := by
      push_cast
      nlinarith [hbs]
    calc ⌊(t : ℚ) * bs⌋ + 1 = ⌊(t : ℚ) * bs + 1⌋ := (Int.floor_add_one _).symm
      _ ≤ ⌊((t + 1 : ℕ) : ℚ) * bs⌋ := Int.floor_mono h1
  have hnn : (0 : ℤ) ≤ ⌊(t : ℚ) * bs⌋ := Int.floor_nonneg.mpr h0
  rw [Int.toNat_lt_toNat (by omega)]
  omega

/-- Bucket boundaries are monotone in the iteration index. -/
theorem bucketBound_mono {bs : ℚ} (hbs : 0 ≤ bs) {t u : ℕ} (h : t ≤ u) :
    bucketBound bs t ≤ bucketBound bs u := by
  unfold bucketBound
  have hf : ⌊(t : ℚ) * bs⌋ ≤ ⌊(u : ℚ) * bs⌋ :=
    Int.floor_mono (mul_le_mul_of_nonneg_right (by exact_mod_cast h) hbs)
  exact Int.toNat_le_toNat (by omega)

/-- The index selected at iteration `i` lies in bucket `i`:
`bucketStart ≤ maxAreaIndex < bucketEnd`. -/
theorem lttbSelect_bounds (data : List α) (d0 : α) (x y : α → ℚ) {bs : ℚ}
    (n : ℕ) (hbs : 1 ≤ bs) (i : ℕ) (last : α) :
    bucketBound bs i ≤ lttbSelect data d0 x y bs n i last ∧
    lttbSelect data d0 x y bs n i last < bucketBound bs (i + 1) := by
  have hlt := bucketBound_strict hbs i
  have key : ∀ f : ℕ → ℚ,
      bucketBound bs i ≤
          scanMaxIdx f (bucketBound bs i)
            (bucketBound bs (i + 1) - bucketBound bs i) ∧
        scanMaxIdx f (bucketBound bs i)
            (bucketBound bs (i + 1) - bucketBound bs i) <
          bucketBound bs (i + 1) := by
    intro f
    have h := scanMaxIdx_bounds f (bucketBound bs i)
      (bucketBound bs (i + 1) - bucketBound bs i) (by omega)
    omega
  exact key _

/-- With bucket size at least 1, the LTTB loop starting at iteration `i`
with `k` iterations left selects a strictly increasing list of indices, one
per iteration, each within the bucket range `[bucketBound i, bucketBound
(i + k))`, and returns exactly the corresponding points. -/
theorem lttbGo_indices (data : List α) (d0 : α) (x y : α → ℚ) {bs : ℚ}
    (n : ℕ) (hbs : 1 ≤ bs) :
    ∀ (k i : ℕ) (last : α), ∃ idxs : List ℕ,
      lttbGo data d0 x y bs n k i last = idxs.map (fun j => data.getD j d0) ∧
      idxs.length = k ∧ List.Pairwise (· < ·) idxs ∧
      ∀ j ∈ idxs, bucketBound bs i ≤ j ∧ j < bucketBound bs (i + k) := by
  intro k
  have hbs0 : (0 : ℚ) ≤ bs := le_trans zero_le_one hbs
  induction k with
  | zero => intro i last; exact ⟨[], rfl, rfl, List.Pairwise.nil, by simp⟩
  | succ k ih =>
    intro i last
    obtain ⟨hlo, hhi⟩ := lttbSelect_bounds data d0 x y n hbs i last
    obtain ⟨idxs, heq, hlen, hpw, hb⟩ :=
      ih (i + 1) (data.getD (lttbSelect data d0 x y bs n i last) d0)
    refine ⟨lttbSelect data d0 x y bs n i last :: idxs, ?_, ?_, ?_, ?_⟩
    · rw [lttbGo, List.map_cons, heq]
    · simp [hlen]
    · rw [List.pairwise_cons]
      exact ⟨fun j hj => lt_of_lt_of_le hhi (hb j hj).1, hpw⟩
    · intro j hj
      rcases List.mem_cons.mp hj with rfl | hj2
      · exact ⟨hlo, lt_of_lt_of_le hhi (bucketBound_mono hbs0 (by omega))⟩
      · obtain ⟨h1, h2⟩ := hb j hj2
        refine ⟨le_trans (bucketBound_mono hbs0 (by omega)) h1, ?_⟩
        rw [show i + (k + 1) = (i + 1) + k from by omega]
        exact h2

/-- Mapping a strictly increasing list of in-range indices over `getD`
yields a sublist (subsequence) of the list. -/
theorem getD_map_sublist :
    ∀ (l : List α) (idxs : List ℕ) (d : α),
      List.Pairwise (· < ·) idxs → (∀ j ∈ idxs, j < l.length) →
      (idxs.map fun j => l.getD j d).Sublist l := by
  intro l
  induction l with
  | nil =>
    intro idxs d hpw hbound
    cases idxs with
    | nil => simp
    | cons j t => exact absurd (hbound j (List.mem_cons_self j t)) (by simp)
  | cons a rest ih =>
    intro idxs d hpw hbound
    cases idxs with
    | nil => simp
    | cons j t =>
      rw [List.pairwise_cons] at hpw
      by_cases hj : j = 0
      · subst hj
        have ht : ∀ k ∈ t, 1 ≤ k := fun k hk => hpw.1 k hk
        rw [List.map_cons, List.getD_cons_zero]
        refine List.Sublist.cons₂ a ?_
        have hmap : t.map (fun k => (a :: rest).getD k d) =
            (t.map fun k => k - 1).map (fun k => rest.getD k d) := by
          rw [List.map_map]
          apply List.map_congr_left
          intro k hk
          have h1 : 1 ≤ k := ht k hk
          obtain ⟨k2, rfl⟩ : ∃ k2, k = k2 + 1 := ⟨k - 1, by omega⟩
          simp [List.getD_cons_succ]
        rw [hmap]
        apply ih
        · rw [List.pairwise_map]
          refine List.Pairwise.imp_of_mem ?_ hpw.2
          intro u v hu hv huv
          have := ht u hu
          omega
        · intro k hk
          rw [List.mem_map] at hk
          obtain ⟨k0, hk0, rfl⟩ := hk
          have h1 := ht k0 hk0
          have h2 := hbound k0 (List.mem_cons_of_mem 0 hk0)
          simp only [List.length_cons] at h2
          omega
      · have hall : ∀ k ∈ j :: t, 1 ≤ k := by
          intro k hk
          rcases List.mem_cons.mp hk with rfl | hk2
          · omega
          · have := hpw.1 k hk2; omega
        have hmap : (j :: t).map (fun k => (a :: rest).getD k d) =
            ((j :: t).map fun k => k - 1).map (fun k => rest.getD k d) := by
          rw [List.map_map]
          apply List.map_congr_left
          intro k hk
          have h1 : 1 ≤ k := hall k hk
          obtain ⟨k2, rfl⟩ : ∃ k2, k = k2 + 1 := ⟨k - 1, by omega⟩
          simp [List.getD_cons_succ]
        rw [hmap]
        refine List.Sublist.cons a ?_
        apply ih
        · rw [List.pairwise_map]
          refine List.Pairwise.imp_of_mem ?_ (List.pairwise_cons.mpr hpw)
          intro u v hu hv huv
          have := hall u hu
          omega
        · intro k hk
          rw [List.mem_map] at hk
          obtain ⟨k0, hk0, rfl⟩ := hk
          have h1 := hall k0 hk0
          have h2 := hbound k0 hk0
          simp only [List.length_cons] at h2
          omega

/-- C10 (amended): for every input with at least two points — and for any
input in the pass-through regime `N ≤ T` — the LTTB output is a subsequence
of the input: every output point is an input point taken at strictly
increasing indices, none synthesized, preserving input order; and in the
proper downsampling regime `3 ≤ T < N` the first and last output points are
the input's first and last points (indices 0 and N−1).  (The only exception,
forced by the counterexample, is the degenerate single-point input with
`T = 0`, whose output repeats the point twice.) -/
theorem claim_C10_subsequence_amended (α : Type) (data : List α) (T : ℕ)
    (x y : α → ℚ) (h2 : 2 ≤ data.length ∨ data.length ≤ T) :
    (downsampleLTTB data T x y).Sublist data ∧
    (3 ≤ T → T < data.length →
      (downsampleLTTB data T x y).head? = data.head? ∧
      (downsampleLTTB data T x y).getLast? = data.getLast?) := by
  by_cases hpass : data.length ≤ T
  · rw [downsampleLTTB.eq_def, if_pos hpass]
    exact ⟨List.Sublist.refl data, fun h3 hlt => absurd hpass (by omega)⟩
  · push_neg at hpass
    have hn2 : 2 ≤ data.length := by
      rcases h2 with h | h
      · exact h
      · omega
    cases data with
    | nil => simp at hn2
    | cons d0 rest =>
      rw [downsampleLTTB, if_neg (by omega)]
      refine ⟨?_, fun h3 hlt =>
        ⟨by rw [lttbCore_head]; rfl,
         by rw [lttbCore_last, getLast?_eq_getD (d0 :: rest) d0 (by simp)]⟩⟩
      by_cases hT3 : 3 ≤ T
      · have hbs : (1 : ℚ) ≤ (((d0 :: rest).length : ℚ) - 2) / ((T : ℚ) - 2) := by
          rw [one_le_div_iff]
          left
          have hc3 : (3 : ℚ) ≤ (T : ℚ) := by exact_mod_cast hT3
          have hcn : (T : ℚ) + 1 ≤ ((d0 :: rest).length : ℚ) := by
            exact_mod_cast hpass
          constructor
          · linarith
          · linarith
        obtain ⟨idxs, heq, hlen, hpw, hb⟩ :=
          lttbGo_indices (d0 :: rest) d0 x y (d0 :: rest).length hbs (T - 2) 0 d0
        have hS0 : bucketBound ((((d0 :: rest).length : ℚ) - 2) / ((T : ℚ) - 2)) 0 = 1 := by
          simp [bucketBound]
        have hSk : bucketBound ((((d0 :: rest).length : ℚ) - 2) / ((T : ℚ) - 2))
            (0 + (T - 2)) = (d0 :: rest).length - 1 := by
          have hTc : ((T - 2 : ℕ) : ℚ) = (T : ℚ) - 2 := by
            rw [Nat.cast_sub (show 2 ≤ T by omega)]
            norm_num
          have hne : ((T : ℚ) - 2) ≠ 0 := by
            have hc3 : (3 : ℚ) ≤ (T : ℚ) := by exact_mod_cast hT3
            linarith
          have hnc : (((d0 :: rest).length : ℚ) - 2) =
              (((d0 :: rest).length - 2 : ℕ) : ℚ) := by
            rw [Nat.cast_sub (show 2 ≤ (d0 :: rest).length by omega)]
            norm_num
          simp only [Nat.zero_add]
          unfold bucketBound
          rw [show ((T - 2 : ℕ) : ℚ) * ((((d0 :: rest).length : ℚ) - 2) / ((T : ℚ) - 2)) =
              (((d0 :: rest).length : ℚ) - 2) from by
            rw [hTc]; exact mul_div_cancel₀ _ hne]
          rw [hnc, Int.floor_natCast]
          omega
        simp only [lttbCore]
        rw [heq]
        have hfull : (d0 :: idxs.map fun j => (d0 :: rest).getD j d0) ++
            [(d0 :: rest).getD ((d0 :: rest).length - 1) d0] =
            ((0 :: (idxs ++ [(d0 :: rest).length - 1])).map
              fun j => (d0 :: rest).getD j d0) := by
          simp [List.map_append]
        rw [hfull]
        apply getD_map_sublist
        · rw [List.pairwise_cons]
          constructor
          · intro a ha
            rcases List.mem_append.mp ha with ha2 | ha2
            · have := (hb a ha2).1
              rw [hS0] at this
              omega
            · simp only [List.mem_singleton] at ha2
              subst ha2
              omega
          · rw [List.pairwise_append]
            refine ⟨hpw, by simp, ?_⟩
            intro a ha b hb2
            simp only [List.mem_singleton] at hb2
            subst hb2
            have := (hb a ha).2
            rw [hSk] at this
            exact this
        · intro j hj
          rcases List.mem_cons.mp hj with rfl | hj2
          · simp
          · rcases List.mem_append.mp hj2 with hj3 | hj3
            · have := (hb j hj3).2
              rw [hSk] at this
              omega
            · simp only [List.mem_singleton] at hj3
              subst hj3
              omega
      · have hk : T - 2 = 0 := by omega
        simp only [lttbCore, hk, lttbGo, List.cons_append, List.nil_append]
        refine List.Sublist.cons₂ d0 (List.singleton_sublist.mpr ?_)
        have hr : 1 ≤ rest.length := by
          simp only [List.length_cons] at hn2
          omega
        have hgd : (d0 :: rest).getD ((d0 :: rest).length - 1) d0 =
            rest.getD (rest.length - 1) d0 := by
          have hlen1 : (d0 :: rest).length - 1 = (rest.length - 1) + 1 := by
            simp only [List.length_cons]
            omega
          rw [hlen1, List.getD_cons_succ]
        rw [hgd, List.getD_eq_getElem rest d0 (by omega)]
        exact List.getElem_mem _

/-- C10 witness: the four-point series `[0, 1, 2, 3]` downsampled to 3
points is a subsequence keeping the first and last points. -/
theorem claim_C10_subsequence_amended_witness :
    (downsampleLTTB [(0 : ℚ), 1, 2, 3] 3 id id).Sublist [(0 : ℚ), 1, 2, 3] ∧
    (downsampleLTTB [(0 : ℚ), 1, 2, 3] 3 id id).head? = [(0 : ℚ), 1, 2, 3].head? ∧
    (downsampleLTTB [(0 : ℚ), 1, 2, 3] 3 id id).getLast? =
      [(0 : ℚ), 1, 2, 3].getLast? :=
  ⟨(claim_C10_subsequence_amended ℚ [0, 1, 2, 3] 3 id id (Or.inl (by decide))).1,
   (claim_C10_subsequence_amended ℚ [0, 1, 2, 3] 3 id id
      (Or.inl (by decide))).2 (by decide) (by decide)⟩

/-- C3 witness: the four-point series `[0, 1, 2, 3]` at threshold 3 for the
standalone function, and four identical telemetry points at threshold 3 for
the worker's function. -/
theorem claim_C3_lttb_bounds_witness :
    ((downsampleLTTB [(0 : ℚ), 1, 2, 3] 3 id id).length = 3 ∧
     (downsampleLTTB [(0 : ℚ), 1, 2, 3] 3 id id).head? = [(0 : ℚ), 1, 2, 3].head? ∧
     (downsampleLTTB [(0 : ℚ), 1, 2, 3] 3 id id).getLast? =
       [(0 : ℚ), 1, 2, 3].getLast?) ∧
    ((Worker.downsampleTelemetry (fun _ => 0)
        (List.replicate 4 ⟨"v", "m", "", 0, none, none, none, none, none, none,
          none, none, none, none, none, none, none, 0, "s"⟩) 3).length = 3 ∧
     (Worker.downsampleTelemetry (fun _ => 0)
        (List.replicate 4 ⟨"v", "m", "", 0, none, none, none, none, none, none,
          none, none, none, none, none, none, none, 0, "s"⟩) 3).head? =
       (List.replicate 4 (⟨"v", "m", "", 0, none, none, none, none, none, none,
          none, none, none, none, none, none, none, 0, "s"⟩ : TelemetryPoint)).head? ∧
     (Worker.downsampleTelemetry (fun _ => 0)
        (List.replicate 4 ⟨"v", "m", "", 0, none, none, none, none, none, none,
          none, none, none, none, none, none, none, 0, "s"⟩) 3).getLast? =
       (List.replicate 4 (⟨"v", "m", "", 0, none, none, none, none, none, none,
          none, none, none, none, none, none, none, 0, "s"⟩ : TelemetryPoint)).getLast?) :=
  ⟨claim_C3_lttb_bounds.1 ℚ [0, 1, 2, 3] 3 id id (by decide) (by decide),
   claim_C3_lttb_bounds.2 (fun _ => 0) _ 3 (by decide) (by simp)⟩

/-- C6 (amended): `getCachedLap` returns the stored data on a hit after
refreshing the entry's last-access timestamp to `now` (writing it back), a
null on a miss, and never throws (any backend failure degrades to a null
result); `deleteCachedLap` and `clearAllCache` likewise swallow backend
failures; but `setCachedLap` propagates a backend failure to the caller as
a thrown `Error` ("Failed to cache lap: …") instead of degrading to a
logged no-op. -/
theorem claim_C6_get_degrades_set_rethrows :
    (∀ (now : ℕ) (s : Cache.CacheState) (t : String) (d l : ℤ)
        (e : Cache.CacheEntry),
        s.find? (fun f => f.key == Cache.generateCacheKey t d l) = some e →
        Cache.getCachedLap true now s t d l =
          .ok (some e.data, Cache.putEntry s { e with timestamp := now })) ∧
    (∀ (now : ℕ) (s : Cache.CacheState) (t : String) (d l : ℤ),
        s.find? (fun f => f.key == Cache.generateCacheKey t d l) = none →
        Cache.getCachedLap true now s t d l = .ok (none, s)) ∧
    (∀ (ok : Bool) (now : ℕ) (s : Cache.CacheState) (t : String) (d l : ℤ),
        ∃ r, Cache.getCachedLap ok now s t d l = .ok r) ∧
    (∀ (now : ℕ) (s : Cache.CacheState) (t : String) (d l : ℤ)
        (dat : LapTelemetry),
        Cache.setCachedLap false now s t d l dat =
          .error "Failed to cache lap: backend failure") ∧
    (∀ (ok : Bool) (s : Cache.CacheState) (t : String) (d l : ℤ),
        ∃ s2, Cache.deleteCachedLap ok s t d l = .ok s2) ∧
    (∀ (ok : Bool) (s : Cache.CacheState), ∃ s2, Cache.clearAllCache ok s = .ok s2) := by
  refine ⟨?_, ?_, ?_, ?_, ?_, ?_⟩
  · intro now s t d l e h
    simp [Cache.getCachedLap, Cache.dbGet, Cache.dbPut, h]
  · intro now s t d l h
    simp [Cache.getCachedLap, Cache.dbGet, h]
  · intro ok now s t d l
    cases ok with
    | false => exact ⟨(none, s), rfl⟩
    | true =>
      cases hf : s.find? (fun f => f.key == Cache.generateCacheKey t d l) with
      | none => exact ⟨(none, s), by simp [Cache.getCachedLap, Cache.dbGet, hf]⟩
      | some e =>
        exact ⟨(some e.data, Cache.putEntry s { e with timestamp := now }),
          by simp [Cache.getCachedLap, Cache.dbGet, Cache.dbPut, hf]⟩
  · intro now s t d l dat
    rfl
  · intro ok s t d l
    cases ok with
    | false => exact ⟨s, rfl⟩
    | true => exact ⟨_, rfl⟩
  · intro ok s
    cases ok with
    | false => exact ⟨s, rfl⟩
    | true => exact ⟨[], rfl⟩

/-- C6 witness: a one-entry cache, hit and miss reads, a failing-backend
read, the failing-backend write (which throws), and failing-backend delete
and clear (which do not). -/
theorem claim_C6_witness :
    Cache.getCachedLap true 99 [⟨"t_1_1", "t", 1, 1, ⟨1, 1, [], [], ⟨0, 0, 0⟩⟩, 1000, 5⟩]
        "t" 1 1 =
      .ok (some ⟨1, 1, [], [], ⟨0, 0, 0⟩⟩,
        Cache.putEntry [⟨"t_1_1", "t", 1, 1, ⟨1, 1, [], [], ⟨0, 0, 0⟩⟩, 1000, 5⟩]
          ⟨"t_1_1", "t", 1, 1, ⟨1, 1, [], [], ⟨0, 0, 0⟩⟩, 1000, 99⟩) ∧
    Cache.getCachedLap true 99 [] "t" 1 1 = .ok (none, []) ∧
    (∃ r, Cache.getCachedLap false 99
        [⟨"t_1_1", "t", 1, 1, ⟨1, 1, [], [], ⟨0, 0, 0⟩⟩, 1000, 5⟩] "t" 1 1 = .ok r) ∧
    Cache.setCachedLap false 99 [] "t" 1 1 ⟨1, 1, [], [], ⟨0, 0, 0⟩⟩ =
      .error "Failed to cache lap: backend failure" ∧
    (∃ s2, Cache.deleteCachedLap false
        [⟨"t_1_1", "t", 1, 1, ⟨1, 1, [], [], ⟨0, 0, 0⟩⟩, 1000, 5⟩] "t" 1 1 = .ok s2) ∧
    (∃ s2, Cache.clearAllCache false
        [⟨"t_1_1", "t", 1, 1, ⟨1, 1, [], [], ⟨0, 0, 0⟩⟩, 1000, 5⟩] = .ok s2) :=
  ⟨claim_C6_get_degrades_set_rethrows.1 99 _ "t" 1 1 _ (by rfl),
   claim_C6_get_degrades_set_rethrows.2.1 99 [] "t" 1 1 (by rfl),
   claim_C6_get_degrades_set_rethrows.2.2.1 false 99 _ "t" 1 1,
   claim_C6_get_degrades_set_rethrows.2.2.2.1 99 [] "t" 1 1 _,
   claim_C6_get_degrades_set_rethrows.2.2.2.2.1 false _ "t" 1 1,
   claim_C6_get_degrades_set_rethrows.2.2.2.2.2 false _⟩

namespace Cache

/-- Deleting the keys of a list of entries one by one equals filtering out
every entry whose key occurs among them. -/
theorem foldl_deleteKey (rs : List CacheEntry) :
    ∀ st : CacheState,
      rs.foldl (fun st e => deleteKey st e.key) st =
      st.filter fun e => !(rs.any fun r => e.key == r.key) := by
  induction rs with
  | nil =>
    intro st
    simp [List.filter_eq_self]
  | cons r rest ih =>
    intro st
    rw [List.foldl_cons]
    show rest.foldl (fun st e => deleteKey st e.key) (deleteKey st r.key) = _
    rw [ih, deleteKey, List.filter_filter]
    congr 1
    funext e
    simp only [List.any_cons, Bool.not_or, bne]
    rw [Bool.and_comm]

/-- Within a list of pairwise-distinct keys, the key determines the entry. -/
theorem eq_of_same_key {s : CacheState}
    (h : s.Pairwise fun a b => a.key ≠ b.key) :
    ∀ a ∈ s, ∀ b ∈ s, a.key = b.key → a = b := by
  induction s with
  | nil => simp
  | cons c t ih =>
    rw [List.pairwise_cons] at h
    intro a ha b hb hk
    rcases List.mem_cons.mp ha with rfl | ha2
    · rcases List.mem_cons.mp hb with rfl | hb2
      · rfl
      · exact absurd hk (h.1 b hb2)
    · rcases List.mem_cons.mp hb with rfl | hb2
      · exact absurd hk.symm (h.1 a ha2)
      · exact ih h.2 a ha2 b hb2 hk

/-- Pairwise-distinct keys make the entry list duplicate-free. -/
theorem nodup_of_distinct_keys {s : CacheState}
    (h : s.Pairwise fun a b => a.key ≠ b.key) : List.Nodup s :=
  h.imp fun hne heq => hne (congrArg CacheEntry.key heq)

/-- What eviction does to an over-full store with distinct keys: exactly
the `length - MAX_CACHE_ENTRIES` entries at the front of the
timestamp-sorted order are removed, leaving exactly the entries of its
tail. -/
theorem evictOldEntries_spec (s : CacheState)
    (hkeys : s.Pairwise fun a b => a.key ≠ b.key)
    (hlen : MAX_CACHE_ENTRIES < s.length) :
    (evictOldEntries true s).length = MAX_CACHE_ENTRIES ∧
    ∀ e, e ∈ evictOldEntries true s ↔
      e ∈ (sortEntries s).drop (s.length - MAX_CACHE_ENTRIES) := by
  have hperm : List.Perm (sortEntries s) s := List.perm_insertionSort entryLE s
  have hnd : List.Nodup s := nodup_of_distinct_keys hkeys
  have hnds : List.Nodup (sortEntries s) := hperm.nodup_iff.mpr hnd
  have hslen : (sortEntries s).length = s.length := hperm.length_eq
  have hdisj : List.Disjoint ((sortEntries s).take (s.length - MAX_CACHE_ENTRIES))
      ((sortEntries s).drop (s.length - MAX_CACHE_ENTRIES)) :=
    List.disjoint_take_drop hnds (Nat.le_refl _)
  have hunfold : evictOldEntries true s =
      s.filter fun e =>
        !(((sortEntries s).take (s.length - MAX_CACHE_ENTRIES)).any
          fun r => e.key == r.key) := by
    rw [evictOldEntries, if_neg (by decide), if_neg (by omega)]
    exact foldl_deleteKey _ s
  -- every entry of the removed prefix fails the filter
  have hfalse : ∀ e ∈ (sortEntries s).take (s.length - MAX_CACHE_ENTRIES),
      (!(((sortEntries s).take (s.length - MAX_CACHE_ENTRIES)).any
        fun r => e.key == r.key)) = false := by
    intro e he
    simp only [Bool.not_eq_false', List.any_eq_true]
    exact ⟨e, he, by simp⟩
  -- every entry of the kept suffix passes the filter
  have htrue : ∀ e ∈ (sortEntries s).drop (s.length - MAX_CACHE_ENTRIES),
      (!(((sortEntries s).take (s.length - MAX_CACHE_ENTRIES)).any
        fun r => e.key == r.key)) = true := by
    intro e he
    simp only [Bool.not_eq_true', List.any_eq_false]
    intro r hr
    rw [beq_iff_eq]
    intro hk
    have hes : e ∈ s := hperm.subset (List.mem_of_mem_drop he)
    have hrs : r ∈ s := hperm.subset (List.mem_of_mem_take hr)
    have her : e = r := eq_of_same_key hkeys e hes r hrs hk
    exact hdisj (her ▸ hr) he
  have hsplit : List.filter
      (fun e => !(((sortEntries s).take (s.length - MAX_CACHE_ENTRIES)).any
        fun r => e.key == r.key))
      ((sortEntries s).take (s.length - MAX_CACHE_ENTRIES) ++
        (sortEntries s).drop (s.length - MAX_CACHE_ENTRIES)) =
      (sortEntries s).drop (s.length - MAX_CACHE_ENTRIES) := by
    rw [List.filter_append,
      List.filter_eq_nil_iff.mpr (by
        intro a ha
        rw [hfalse a ha]
        simp),
      List.filter_eq_self.mpr htrue, List.nil_append]
  constructor
  · calc (evictOldEntries true s).length
        = (List.filter
            (fun e => !(((sortEntries s).take (s.length - MAX_CACHE_ENTRIES)).any
              fun r => e.key == r.key)) (sortEntries s)).length := by
          rw [hunfold]
          exact ((hperm.filter _).length_eq).symm
      _ = (List.filter
            (fun e => !(((sortEntries s).take (s.length - MAX_CACHE_ENTRIES)).any
              fun r => e.key == r.key))
            ((sortEntries s).take (s.length - MAX_CACHE_ENTRIES) ++
              (sortEntries s).drop (s.length - MAX_CACHE_ENTRIES))).length := by
          rw [List.take_append_drop]
      _ = ((sortEntries s).drop (s.length - MAX_CACHE_ENTRIES)).length := by
          rw [hsplit]
      _ = MAX_CACHE_ENTRIES := by
          rw [List.length_drop]
          omega
  · intro e
    rw [hunfold, List.mem_filter]
    constructor
    · rintro ⟨hes, hp⟩
      have hsorted : e ∈ (sortEntries s).take (s.length - MAX_CACHE_ENTRIES) ++
          (sortEntries s).drop (s.length - MAX_CACHE_ENTRIES) := by
        rw [List.take_append_drop]
        exact hperm.symm.subset hes
      rcases List.mem_append.mp hsorted with h1 | h1
      · rw [hfalse e h1] at hp
        exact absurd hp (by simp)
      · exact h1
    · intro he
      exact ⟨hperm.subset (List.mem_of_mem_drop he), htrue e he⟩

end Cache

/-- C5: on a working backend, every `setCachedLap` leaves at most 20 entries
(`MAX_CACHE_ENTRIES`); when the write pushes the entry count over 20, the
eviction removes exactly the entries with the oldest last-access timestamps
(the front of the ascending-timestamp order), exactly 20 remain, and
precisely the non-oldest entries remain present.  Stated for stores whose
keys and last-access timestamps are pairwise distinct (IndexedDB guarantees
key uniqueness; distinct timestamps make "the oldest" well defined, as in
the claim's scenario of 21 distinct insertions). -/
theorem claim_C5_lru_eviction (now : ℕ) (s : Cache.CacheState) (t : String)
    (d l : ℤ) (dat : LapTelemetry)
    (hkeys : (Cache.putEntry s (Cache.mkCacheEntry now t d l dat)).Pairwise
      fun a b => a.key ≠ b.key)
    (hts : (Cache.putEntry s (Cache.mkCacheEntry now t d l dat)).Pairwise
      fun a b => a.timestamp ≠ b.timestamp) :
    ∃ s2, Cache.setCachedLap true now s t d l dat = .ok s2 ∧
      s2.length ≤ Cache.MAX_CACHE_ENTRIES ∧
      (Cache.MAX_CACHE_ENTRIES <
          (Cache.putEntry s (Cache.mkCacheEntry now t d l dat)).length →
        s2.length = Cache.MAX_CACHE_ENTRIES ∧
        ∃ removed kept,
          Cache.sortEntries (Cache.putEntry s (Cache.mkCacheEntry now t d l dat)) =
            removed ++ kept ∧
          removed.length =
            (Cache.putEntry s (Cache.mkCacheEntry now t d l dat)).length -
              Cache.MAX_CACHE_ENTRIES ∧
          (∀ e ∈ removed, ∀ f ∈ kept, e.timestamp < f.timestamp) ∧
          ∀ e, e ∈ s2 ↔ e ∈ kept) := by
  refine ⟨Cache.evictOldEntries true
    (Cache.putEntry s (Cache.mkCacheEntry now t d l dat)), rfl, ?_, ?_⟩
  · by_cases hover : Cache.MAX_CACHE_ENTRIES <
        (Cache.putEntry s (Cache.mkCacheEntry now t d l dat)).length
    · rw [(Cache.evictOldEntries_spec _ hkeys hover).1]
    · rw [Cache.evictOldEntries, if_neg (by decide), if_pos (by omega)]
      omega
  · intro hover
    obtain ⟨hlen2, hmem⟩ := Cache.evictOldEntries_spec _ hkeys hover
    have hperm : List.Perm
        (Cache.sortEntries (Cache.putEntry s (Cache.mkCacheEntry now t d l dat)))
        (Cache.putEntry s (Cache.mkCacheEntry now t d l dat)) :=
      List.perm_insertionSort Cache.entryLE _
    refine ⟨hlen2,
      (Cache.sortEntries (Cache.putEntry s (Cache.mkCacheEntry now t d l dat))).take
        ((Cache.putEntry s (Cache.mkCacheEntry now t d l dat)).length -
          Cache.MAX_CACHE_ENTRIES),
      (Cache.sortEntries (Cache.putEntry s (Cache.mkCacheEntry now t d l dat))).drop
        ((Cache.putEntry s (Cache.mkCacheEntry now t d l dat)).length -
          Cache.MAX_CACHE_ENTRIES),
      (List.take_append_drop _ _).symm, ?_, ?_, hmem⟩
    · rw [List.length_take]
      have := hperm.length_eq
      omega
    · have hsorted : List.Pairwise Cache.entryLE
          (Cache.sortEntries (Cache.putEntry s (Cache.mkCacheEntry now t d l dat))) :=
        List.sorted_insertionSort Cache.entryLE _
      have htsp : List.Pairwise (fun a b : Cache.CacheEntry =>
          a.timestamp ≠ b.timestamp)
          (Cache.sortEntries (Cache.putEntry s (Cache.mkCacheEntry now t d l dat))) :=
        (hperm.pairwise_iff (fun h => h.symm)).mpr hts
      have hlt : List.Pairwise (fun a b : Cache.CacheEntry =>
          a.timestamp < b.timestamp)
          (Cache.sortEntries (Cache.putEntry s (Cache.mkCacheEntry now t d l dat))) :=
        (hsorted.and htsp).imp fun hab => Nat.lt_of_le_of_ne hab.1 hab.2
      rw [← List.take_append_drop
        ((Cache.putEntry s (Cache.mkCacheEntry now t d l dat)).length -
          Cache.MAX_CACHE_ENTRIES)
        (Cache.sortEntries (Cache.putEntry s (Cache.mkCacheEntry now t d l dat)))] at hlt
      exact (List.pairwise_append.mp hlt).2.2

set_option maxRecDepth 4000

/-- C5 witness: a cache of 20 distinct lap entries (timestamps 1..20); the
21st insert (timestamp 21) triggers eviction of exactly the oldest entry. -/
theorem claim_C5_lru_eviction_witness :
    ∃ s2, Cache.setCachedLap true 21
        ((List.range 20).map fun (i : ℕ) =>
          ⟨Cache.generateCacheKey "t" ((i : ℤ) + 1) 1, "t", ((i : ℤ) + 1), 1,
            ⟨0, 0, [], [], ⟨0, 0, 0⟩⟩, 1000, (i + 1 : ℕ)⟩)
        "t" 21 1 ⟨0, 0, [], [], ⟨0, 0, 0⟩⟩ = .ok s2 ∧
      s2.length ≤ Cache.MAX_CACHE_ENTRIES ∧
      (Cache.MAX_CACHE_ENTRIES <
          (Cache.putEntry
            ((List.range 20).map fun (i : ℕ) =>
              ⟨Cache.generateCacheKey "t" ((i : ℤ) + 1) 1, "t", ((i : ℤ) + 1), 1,
                ⟨0, 0, [], [], ⟨0, 0, 0⟩⟩, 1000, (i + 1 : ℕ)⟩)
            (Cache.mkCacheEntry 21 "t" 21 1 ⟨0, 0, [], [], ⟨0, 0, 0⟩⟩)).length →
        s2.length = Cache.MAX_CACHE_ENTRIES ∧
        ∃ removed kept,
          Cache.sortEntries
            (Cache.putEntry
              ((List.range 20).map fun (i : ℕ) =>
                ⟨Cache.generateCacheKey "t" ((i : ℤ) + 1) 1, "t", ((i : ℤ) + 1), 1,
                  ⟨0, 0, [], [], ⟨0, 0, 0⟩⟩, 1000, (i + 1 : ℕ)⟩)
              (Cache.mkCacheEntry 21 "t" 21 1 ⟨0, 0, [], [], ⟨0, 0, 0⟩⟩)) =
            removed ++ kept ∧
          removed.length =
            (Cache.putEntry
              ((List.range 20).map fun (i : ℕ) =>
                ⟨Cache.generateCacheKey "t" ((i : ℤ) + 1) 1, "t", ((i : ℤ) + 1), 1,
                  ⟨0, 0, [], [], ⟨0, 0, 0⟩⟩, 1000, (i + 1 : ℕ)⟩)
              (Cache.mkCacheEntry 21 "t" 21 1 ⟨0, 0, [], [], ⟨0, 0, 0⟩⟩)).length -
              Cache.MAX_CACHE_ENTRIES ∧
          (∀ e ∈ removed, ∀ f ∈ kept, e.timestamp < f.timestamp) ∧
          ∀ e, e ∈ s2 ↔ e ∈ kept) :=
  claim_C5_lru_eviction 21
    ((List.range 20).map fun (i : ℕ) =>
      ⟨Cache.generateCacheKey "t" ((i : ℤ) + 1) 1, "t", ((i : ℤ) + 1), 1,
        ⟨0, 0, [], [], ⟨0, 0, 0⟩⟩, 1000, (i + 1 : ℕ)⟩)
    "t" 21 1 ⟨0, 0, [], [], ⟨0, 0, 0⟩⟩ (by decide) (by decide)
